import Mathlib

/-!
# Verification of the MikroEvent dispatcher (src/MikroEvent.ts)

Shallow embedding of the target registry, the emit fan-out engine and the
inbound adapter of the `MikroEvent` class. The registry
(`private targets: Record<string, Target>`) is modelled as a `List Target`
in insertion order, matching `Object.values` enumeration order of a JS
record whose keys are only ever assigned fresh. JS object headers are
modelled as association lists of string pairs; JS object spread
`{ ...a, ...b }` is modelled by `objMerge`.

Effects of `emit` (EventEmitter publishes, outbound `fetch` calls, calls to
the configured `errorHandler`) are made observable through an explicit
trace. The outcome of each `emitter.emit` invocation and of each `fetch`
is supplied by an environment (`EmitEnv`), since handlers and the network
are external to the class.
-/

namespace MikroEvent

/-- An error value: modelled by its message string. -/
abbrev Err := String

/-- A registered target, as stored in `this.targets` after `addTarget`
normalisation (`headers` and `events` always present). -/
structure Target where
  name : String
  url : Option String
  headers : List (String × String)
  events : List String
  deriving Repr, DecidableEq

/-- The argument shape accepted by `addTarget`: `headers` and `events` may
be omitted (the TS interface marks `headers` optional; the code also
defends `events` with `|| []`). -/
structure TargetInput where
  name : String
  url : Option String
  headers : Option (List (String × String))
  events : Option (List String)
  deriving Repr, DecidableEq

/-- The argument shape accepted by `updateTarget`: every field optional
(`none` models an absent / `undefined` field). -/
structure TargetUpdate where
  url : Option String
  headers : Option (List (String × String))
  events : Option (List String)
  deriving Repr, DecidableEq

/-- One entry of `EmitResult.errors`: `{ target, event, error }`. -/
structure EmitError where
  target : String
  event : String
  error : Err
  deriving Repr, DecidableEq

/-- The result object `emit` resolves with. -/
structure EmitResult where
  success : Bool
  errors : List EmitError
  deriving Repr, DecidableEq

/-- Key lookup in a JS-object-as-association-list (first match wins,
mirroring unique keys of a JS object). -/
def lookupKey (l : List (String × String)) (k : String) : Option String :=
  (l.find? (fun p => p.1 == k)).map (fun p => p.2)

/-- JS object spread `{ ...base, ...upd }`: keys of `base` in order with
values overridden by `upd` where present, followed by the keys of `upd`
that are new. -/
def objMerge (base upd : List (String × String)) : List (String × String) :=
  base.map (fun p =>
    match upd.find? (fun q => q.1 == p.1) with
    | some q => (p.1, q.2)
    | none => p)
  ++ upd.filter (fun q => (base.find? (fun p => p.1 == q.1)).isNone)

/-- `this.targets[name]` presence / retrieval on the registry model. -/
def findTarget (r : List Target) (name : String) : Option Target :=
  r.find? (fun t => t.name == name)

/-- Normalisation applied when storing a target:
`{ name, url, headers: target.headers || {}, events: target.events || [] }`. -/
def storeTarget (t : TargetInput) : Target :=
  { name := t.name
    url := t.url
    headers := t.headers.getD []
    events := t.events.getD [] }

/-- One step of `addTarget`'s per-target map: reject a duplicate name
without mutation, otherwise store the normalised target (fresh key
assignment appends in record order). -/
def addTarget1 (r : List Target) (t : TargetInput) : List Target × Bool :=
  if (findTarget r t.name).isSome then (r, false)
  else (r ++ [storeTarget t], true)

/-- `addTarget` on a batch: sequential registration, result is the
conjunction of the per-target booleans (`results.every(...)`). -/
def addTarget : List Target → List TargetInput → List Target × Bool
  | r, [] => (r, true)
  | r, t :: ts =>
    let step := addTarget1 r t
    let rest := addTarget step.1 ts
    (rest.1, step.2 && rest.2)

/-- In-place mutation of the (unique) target stored under `name`:
record order is preserved. -/
def updateWhere (r : List Target) (name : String) (f : Target → Target) :
    List Target :=
  r.map (fun t => if t.name == name then f t else t)

/-- Field application of `updateTarget`:
`if (update.url !== undefined) target.url = update.url;`
`if (update.headers) target.headers = { ...target.headers, ...update.headers };`
`if (update.events) target.events = update.events;`. -/
def applyUpdate (u : TargetUpdate) (t : Target) : Target :=
  let t1 := match u.url with
    | some v => { t with url := some v }
    | none => t
  let t2 := match u.headers with
    | some h => { t1 with headers := objMerge t1.headers h }
    | none => t1
  match u.events with
  | some es => { t2 with events := es }
  | none => t2

/-- `updateTarget(name, update)`. -/
def updateTarget (r : List Target) (name : String) (u : TargetUpdate) :
    List Target × Bool :=
  if (findTarget r name).isSome then
    (updateWhere r name (applyUpdate u), true)
  else (r, false)

/-- `removeTarget(name)`. -/
def removeTarget (r : List Target) (name : String) : List Target × Bool :=
  if (findTarget r name).isSome then
    (r.filter (fun t => !(t.name == name)), true)
  else (r, false)

/-- The `forEach` body of `addEventToTarget`: append each event not
already present. -/
def appendEvents (evs : List String) (base : List String) : List String :=
  evs.foldl (fun acc e => if acc.contains e then acc else acc ++ [e]) base

/-- `addEventToTarget(name, events)`. -/
def addEventToTarget (r : List Target) (name : String) (evs : List String) :
    List Target × Bool :=
  if (findTarget r name).isSome then
    (updateWhere r name (fun t => { t with events := appendEvents evs t.events }),
     true)
  else (r, false)

/-! ### Emit model -/

/-- The matching filter of `emit` (line 174-176):
`target.events.includes(eventName) || target.events.includes('*')`. -/
def matchesEvent (t : Target) (e : String) : Bool :=
  t.events.contains e || t.events.contains "*"

/-- Target resolution inside `emit`: `Object.values(this.targets).filter(...)`,
i.e. the stored targets matching the event, in registry order. -/
def resolveTargets (r : List Target) (e : String) : List Target :=
  r.filter (fun t => matchesEvent t e)

/-- JS truthiness of `target.url`: `undefined` and `''` are falsy, so the
partition `!target.url` / `target.url` of `emit` classifies a target with
a missing or empty url as local. -/
def isTruthyUrl : Option String → Bool
  | none => false
  | some s => !(s == "")

/-- Outcome of one `fetch` call, as the code distinguishes them:
a 2xx response (`response.ok`), a non-2xx response (status and status
text), or a rejected promise (transport-level error). -/
inductive FetchOutcome where
  | ok
  | httpError (status : Nat) (statusText : String)
  | transportError (msg : Err)
  deriving Repr, DecidableEq

/-- The error `emit` records for one fetch outcome: `none` for a 2xx
response; the `HTTP error! Status: ...` message for non-2xx; the carried
error for a transport failure. -/
def fetchErrorMsg : FetchOutcome → Option Err
  | .ok => none
  | .httpError status statusText =>
      some ("HTTP error! Status: " ++ toString status ++ ": " ++ statusText)
  | .transportError msg => some msg

/-- Environment of one `emit` call: outcome of the i-th `emitter.emit`
invocation (`some err` means a synchronously-thrown handler error), and
outcome of the fetch issued for a given remote target (keyed by target
name, unique in the registry). -/
structure EmitEnv where
  publish : Nat → Option Err
  fetch : String → FetchOutcome

/-- One call of the configured `errorHandler(error, eventName?, data?)`. -/
structure HandlerCall (α : Type) where
  error : Err
  eventName : Option String
  data : Option α
  deriving Repr, DecidableEq

/-- An observable effect of `emit`: one `this.emitter.emit(eventName, data)`
publish, or one outbound HTTP POST request with its url, merged headers and
`{eventName, data}` envelope. -/
inductive Action (α : Type) where
  | publish (eventName : String) (data : α)
  | request (url : String) (headers : List (String × String))
      (eventName : String) (data : α)
  deriving Repr, DecidableEq

/-- Whether an action is a local publish. -/
def isPublishAct {α : Type} : Action α → Bool
  | .publish _ _ => true
  | .request .. => false

/-- Whether an action is an outbound HTTP request. -/
def isRequestAct {α : Type} : Action α → Bool
  | .publish _ _ => false
  | .request .. => true

/-- Headers of the outbound request:
`{ 'Content-Type': 'application/json', ...target.headers }`. -/
def requestHeaders (t : Target) : List (String × String) :=
  objMerge [("Content-Type", "application/json")] t.headers

/-- Everything observable about one `emit` call: the resolved `EmitResult`,
the sequence of `errorHandler` invocations, and the action trace. -/
structure EmitTrace (α : Type) where
  result : EmitResult
  handlerCalls : List (HandlerCall α)
  actions : List (Action α)
  deriving Repr, DecidableEq

/-- The local partition of the matched targets: `!target.url` (JS
truthiness, so an absent or empty url is local). -/
def localMatches (r : List Target) (e : String) : List Target :=
  (resolveTargets r e).filter (fun t => !(isTruthyUrl t.url))

/-- The remote partition of the matched targets: `target.url` truthy. -/
def remoteMatches (r : List Target) (e : String) : List Target :=
  (resolveTargets r e).filter (fun t => isTruthyUrl t.url)

/-- Number of matched remote targets whose fetch outcome is a failure
(non-2xx or transport error) in a given environment. -/
def failCount (env : EmitEnv) (r : List Target) (e : String) : Nat :=
  (remoteMatches r e).countP (fun t => (fetchErrorMsg (env.fetch t.name)).isSome)

/-- Error entries captured by the local delivery loop: the i-th matched
local target's `this.emitter.emit(eventName, data)` is wrapped in
`try/catch`; a thrown handler error becomes `{target, event, error}`. -/
def localErrorsOf (env : EmitEnv) (e : String) (locals : List Target) :
    List EmitError :=
  locals.enum.filterMap (fun p =>
    (env.publish p.1).map (fun err => ⟨p.2.name, e, err⟩))

/-- `errorHandler(error, eventName, data)` calls made by the local
delivery loop, one per caught handler error. -/
def localCallsOf {α : Type} (env : EmitEnv) (e : String) (d : α)
    (locals : List Target) : List (HandlerCall α) :=
  locals.enum.filterMap (fun p =>
    (env.publish p.1).map (fun err => ⟨err, some e, some d⟩))

/-- Error entries captured from remote deliveries: a non-ok response or a
rejected fetch becomes `makeError(target.name, eventName, error)`. -/
def remoteErrorsOf (env : EmitEnv) (e : String) (remotes : List Target) :
    List EmitError :=
  remotes.filterMap (fun t =>
    (fetchErrorMsg (env.fetch t.name)).map (fun err => ⟨t.name, e, err⟩))

/-- `errorHandler(error, eventName, data)` calls made for remote delivery
failures, one per failed target. -/
def remoteCallsOf {α : Type} (env : EmitEnv) (e : String) (d : α)
    (remotes : List Target) : List (HandlerCall α) :=
  remotes.filterMap (fun t =>
    (fetchErrorMsg (env.fetch t.name)).map (fun err => ⟨err, some e, some d⟩))

/-- The model of `MikroEvent.emit(eventName, data)`.

Mirrors the source: resolve matching targets; for each local match invoke
the notifier's publish (the i-th invocation's outcome given by
`env.publish i`), catching a thrown error into an `{target, event, error}`
entry plus an `errorHandler(error, eventName, data)` call; then issue one
POST per remote match, a non-ok response or transport failure likewise
producing an error entry and a handler call. `success` starts `true` and
is set `false` on every captured error, hence equals `errors == []`.
Every throwing operation of the source is caught (`Promise.allSettled`
never rejects), so the model is a total function into `EmitTrace`: `emit`
always resolves with a result object. Remote completion order is modelled
as registry order (the source leaves it unspecified). -/
def emitModel {α : Type} (r : List Target) (env : EmitEnv) (e : String)
    (d : α) : EmitTrace α :=
  let locals := localMatches r e
  let remotes := remoteMatches r e
  { result :=
      { success := (localErrorsOf env e locals
          ++ remoteErrorsOf env e remotes).isEmpty
        errors := localErrorsOf env e locals
          ++ remoteErrorsOf env e remotes }
    handlerCalls := localCallsOf env e d locals ++ remoteCallsOf env e d remotes
    actions := locals.map (fun _ => .publish e d)
      ++ remotes.map (fun t =>
          .request (t.url.getD "") (requestHeaders t) e d) }

/-- The `body` argument of `handleIncomingEvent`: raw text, or an
already-structured (non-null) object whose `eventName` / `data` fields may
each be absent (destructuring an arbitrary non-null object never throws;
absent fields are `undefined`, modelled as `none`). -/
inductive Body (α : Type) where
  | str (s : String)
  | obj (eventName : Option String) (data : Option α)
  deriving Repr, DecidableEq

/-- Everything observable about one `handleIncomingEvent` call: the
`errorHandler` invocations made before returning, the deliveries deferred
via `process.nextTick` (eventName/data pairs as destructured), and the
error the call rejects with, if any (`none` = resolves). -/
structure IncomingTrace (α : Type) where
  handlerCalls : List (HandlerCall α)
  scheduled : List (Option String × Option α)
  thrown : Option Err
  deriving Repr, DecidableEq

/-- The model of `MikroEvent.handleIncomingEvent(body)`.

`parse` models `JSON.parse` followed by destructuring of `{eventName, data}`
(an external runtime primitive: `.error` = the `SyntaxError` it throws on
invalid JSON). A string body is parsed inside the `try`; failure runs the
`catch`: `errorHandler(error, 'parse_event')` (no data argument) and then
`throw error`. On success, and for an object body unconditionally,
delivery of the destructured pair is deferred with `process.nextTick` and
the call resolves. -/
def handleIncomingEvent {α : Type}
    (parse : String → Except Err (Option String × Option α))
    (body : Body α) : IncomingTrace α :=
  match body with
  | .obj en d => { handlerCalls := [], scheduled := [(en, d)], thrown := none }
  | .str s =>
    match parse s with
    | .ok (en, d) =>
        { handlerCalls := [], scheduled := [(en, d)], thrown := none }
    | .error err =>
        { handlerCalls := [⟨err, some "parse_event", none⟩]
          scheduled := []
          thrown := some err }

/-! ### Helper lemmas -/

theorem length_filterMap_countP {α β : Type} (f : α → Option β) (l : List α) :
    (l.filterMap f).length = l.countP (fun a => (f a).isSome) := by
  induction l with
  | nil => rfl
  | cons x xs ih =>
    cases h : f x <;>
      simp [List.filterMap_cons, List.countP_cons, h, ih]

theorem isEmpty_eq_beqZero {α : Type} (l : List α) :
    l.isEmpty = (l.length == 0) := by
  cases l <;> rfl

theorem find?_filter_of_imp {α : Type} (l : List α) (p q : α → Bool)
    (h : ∀ a, p a = true → q a = true) :
    (l.filter q).find? p = l.find? p := by
  induction l with
  | nil => rfl
  | cons x xs ih =>
    by_cases hp : p x = true
    · have hq := h x hp
      simp [List.filter_cons, hq, List.find?_cons, hp]
    · by_cases hq : q x = true <;>
        simp [List.filter_cons, hq, List.find?_cons, hp, ih]

theorem lookupKey_objMerge (base upd : List (String × String)) (k : String) :
    lookupKey (objMerge base upd) k =
      match lookupKey upd k with
      | some v => some v
      | none => lookupKey base k := by
  have hkey : ∀ x : String × String,
      ((match upd.find? (fun q => q.1 == x.1) with
        | some q => (x.1, q.2)
        | none => x) : String × String).1 = x.1 := by
    intro x
    cases upd.find? (fun q => q.1 == x.1) <;> rfl
  unfold lookupKey objMerge
  rw [List.find?_append]
  rw [List.find?_map]
  have hcomp :
      ((fun p : String × String => p.1 == k) ∘
        (fun p : String × String =>
          match upd.find? (fun q => q.1 == p.1) with
          | some q => (p.1, q.2)
          | none => p))
      = (fun p : String × String => p.1 == k) := by
    funext x
    simp only [Function.comp]
    rw [hkey x]
  rw [hcomp]
  cases hbase : base.find? (fun p => p.1 == k) with
  | some b =>
    have hbk : b.1 = k := by
      have hb := List.find?_some hbase
      exact eq_of_beq (by simpa using hb)
    cases hupd : upd.find? (fun q => q.1 == b.1) with
    | some q =>
      simp only [Option.map_some', Option.or_some]
      rw [hbk] at hupd
      simp [hbk, hupd]
    | none =>
      simp only [Option.map_some', Option.or_some]
      rw [hbk] at hupd
      simp [hbk, hupd]
  | none =>
    simp only [Option.map_none', Option.none_or]
    have hfil :
        (upd.filter
            (fun q => (base.find? (fun p => p.1 == q.1)).isNone)).find?
            (fun p => p.1 == k)
          = upd.find? (fun p => p.1 == k) := by
      apply find?_filter_of_imp
      intro a ha
      have hak : a.1 = k := eq_of_beq ha
      rw [hak, hbase]
      rfl
    rw [hfil]
    cases hupd : upd.find? (fun p => p.1 == k) <;> simp

theorem findTarget_updateWhere_self (r : List Target) (name : String)
    (f : Target → Target) (hf : ∀ t, (f t).name = t.name) (t : Target)
    (h : findTarget r name = some t) :
    findTarget (updateWhere r name f) name = some (f t) := by
  induction r with
  | nil => simp [findTarget] at h
  | cons a r ih =>
    by_cases ha : (a.name == name) = true
    · have hfa : ((f a).name == name) = true := by rw [hf a]; exact ha
      unfold findTarget at h
      simp only [List.find?_cons, ha] at h
      cases h
      unfold updateWhere findTarget
      simp only [List.map_cons, if_pos ha, List.find?_cons, hfa]
    · have ha' : (a.name == name) = false := by simpa using ha
      unfold findTarget at h
      simp only [List.find?_cons, ha'] at h
      unfold updateWhere findTarget
      rw [List.map_cons, if_neg ha]
      simp only [List.find?_cons, ha']
      exact ih h

theorem findTarget_updateWhere_other (r : List Target) (name : String)
    (f : Target → Target) (hf : ∀ t, (f t).name = t.name) (m : String)
    (hm : ¬(m = name)) :
    findTarget (updateWhere r name f) m = findTarget r m := by
  induction r with
  | nil => rfl
  | cons a r ih =>
    unfold updateWhere findTarget at *
    by_cases ha : (a.name == name) = true
    · rw [List.map_cons, if_pos ha]
      have ham' : (a.name == m) = false := by
        have : a.name = name := eq_of_beq ha
        simp [this]
        intro hc
        exact hm hc.symm
      have hfam : ((f a).name == m) = false := by rw [hf a]; exact ham'
      simp only [List.find?_cons, hfam, ham']
      exact ih
    · rw [List.map_cons, if_neg ha]
      by_cases ham : (a.name == m) = true
      · simp only [List.find?_cons, ham]
      · have ham' : (a.name == m) = false := by simpa using ham
        simp only [List.find?_cons, ham']
        exact ih

theorem addTarget_fst_append (ts : List TargetInput) (r : List Target) :
    ∃ s, (addTarget r ts).1 = r ++ s := by
  induction ts generalizing r with
  | nil => exact ⟨[], by simp [addTarget]⟩
  | cons t ts ih =>
    by_cases h : (findTarget r t.name).isSome = true
    · obtain ⟨s, hs⟩ := ih r
      exact ⟨s, by simp [addTarget, addTarget1, h, hs]⟩
    · obtain ⟨s, hs⟩ := ih (r ++ [storeTarget t])
      refine ⟨storeTarget t :: s, ?_⟩
      simp [addTarget, addTarget1, h, hs]

theorem addTarget_length_le (ts : List TargetInput) (r : List Target) :
    (addTarget r ts).1.length ≤ r.length + ts.length := by
  induction ts generalizing r with
  | nil => simp [addTarget]
  | cons t ts ih =>
    by_cases h : (findTarget r t.name).isSome = true
    · simp only [addTarget, addTarget1, if_pos h]
      calc (addTarget r ts).1.length ≤ r.length + ts.length := ih r
        _ ≤ r.length + (t :: ts).length := by
            simp only [List.length_cons]
            omega
    · simp only [addTarget, addTarget1, if_neg h]
      calc (addTarget (r ++ [storeTarget t]) ts).1.length
          ≤ (r ++ [storeTarget t]).length + ts.length := ih _
        _ = r.length + (t :: ts).length := by
            simp only [List.length_append, List.length_cons, List.length_nil]
            omega

theorem addTarget_true_iff_length (ts : List TargetInput) (r : List Target) :
    (addTarget r ts).2 = true ↔
      (addTarget r ts).1.length = r.length + ts.length := by
  induction ts generalizing r with
  | nil => simp [addTarget]
  | cons t ts ih =>
    by_cases h : (findTarget r t.name).isSome = true
    · simp only [addTarget, addTarget1, if_pos h, Bool.false_and,
        List.length_cons]
      have hle := addTarget_length_le ts r
      constructor
      · intro hb
        exact absurd hb (by simp)
      · intro hlen
        exfalso
        omega
    · simp only [addTarget, addTarget1, if_neg h, Bool.true_and]
      rw [ih (r ++ [storeTarget t])]
      simp only [List.length_append, List.length_cons, List.length_nil]
      omega

/-- `applyUpdate` never changes the target's name. -/
theorem applyUpdate_name (u : TargetUpdate) (t : Target) :
    (applyUpdate u t).name = t.name := by
  unfold applyUpdate
  cases u.url <;> cases u.headers <;> cases u.events <;> rfl

/-! ### Claim theorems -/

/-- C3: for every batch passed to `addTarget`, a target whose name is
already registered is rejected without mutating the stored target
(processing continues on the rest of the batch and the overall result is
`false`); a fresh name is stored with `headers` defaulted to `[]` and
`events` defaulted to `[]` when omitted; the call returns `true` iff every
entry succeeded (iff every entry got appended, i.e. the registry grew by
the full batch length); and the batch is not atomic: an entry registered
before a failing entry remains registered. -/
theorem addTarget_batch_spec (r : List Target) (t : TargetInput)
    (ts : List TargetInput) :
    ((findTarget r t.name).isSome = true →
        addTarget r (t :: ts) = ((addTarget r ts).1, false)
        ∧ findTarget (addTarget r (t :: ts)).1 t.name = findTarget r t.name)
    ∧ (findTarget r t.name = none →
        addTarget r (t :: ts) = addTarget (r ++ [storeTarget t]) ts
        ∧ storeTarget t ∈ (addTarget r (t :: ts)).1)
    ∧ (∀ n u, storeTarget ⟨n, u, none, none⟩ = ⟨n, u, [], []⟩)
    ∧ ((addTarget r (t :: ts)).2 = true ↔
        (addTarget r (t :: ts)).1.length = r.length + ts.length + 1) := by
  refine ⟨?_, ?_, ?_, ?_⟩
  · intro h
    have heq : addTarget r (t :: ts) = ((addTarget r ts).1, false) := by
      simp [addTarget, addTarget1, h]
    refine ⟨heq, ?_⟩
    rw [heq]
    obtain ⟨x, hx⟩ := Option.isSome_iff_exists.mp h
    obtain ⟨s, hs⟩ := addTarget_fst_append ts r
    unfold findTarget at hx ⊢
    rw [hs, List.find?_append, hx]
    rfl
  · intro h
    have heq : addTarget r (t :: ts) = addTarget (r ++ [storeTarget t]) ts := by
      simp [addTarget, addTarget1, h]
    refine ⟨heq, ?_⟩
    rw [heq]
    obtain ⟨s, hs⟩ := addTarget_fst_append ts (r ++ [storeTarget t])
    rw [hs]
    simp
  · intro n u
    rfl
  · rw [addTarget_true_iff_length]
    simp only [List.length_cons]
    omega

/-- Concrete instantiation of `addTarget_batch_spec`: a duplicate of the
stored name `"a"` is rejected without mutation, and a fresh name `"b"` in
the same situation is appended even though a later entry may fail. -/
theorem addTarget_batch_spec_witness :
    (addTarget [Target.mk "a" none [] ["x"]]
        [TargetInput.mk "a" none none none]
      = ((addTarget [Target.mk "a" none [] ["x"]] []).1, false)
      ∧ findTarget (addTarget [Target.mk "a" none [] ["x"]]
          [TargetInput.mk "a" none none none]).1 "a"
        = findTarget [Target.mk "a" none [] ["x"]] "a")
    ∧ (addTarget [Target.mk "a" none [] ["x"]]
        [TargetInput.mk "b" (some "http://svc") none (some ["x"])]
      = addTarget ([Target.mk "a" none [] ["x"]]
          ++ [storeTarget (TargetInput.mk "b" (some "http://svc") none (some ["x"]))]) []
      ∧ storeTarget (TargetInput.mk "b" (some "http://svc") none (some ["x"]))
        ∈ (addTarget [Target.mk "a" none [] ["x"]]
            [TargetInput.mk "b" (some "http://svc") none (some ["x"])]).1) :=
  ⟨(addTarget_batch_spec [Target.mk "a" none [] ["x"]]
      (TargetInput.mk "a" none none none) []).1 (by decide),
   (addTarget_batch_spec [Target.mk "a" none [] ["x"]]
      (TargetInput.mk "b" (some "http://svc") none (some ["x"])) []).2.1
      (by decide)⟩

/-- C4: `updateTarget` on an unknown name returns `false` and mutates
nothing; on a known name it returns `true`, applies only the supplied
fields to that target (url replaced wholesale only when supplied, headers
merged shallowly with supplied keys overriding and absent keys keeping
their old values, events replaced wholesale when supplied), preserves
every omitted field verbatim, and leaves every other target unchanged. -/
theorem updateTarget_spec (r : List Target) (name : String)
    (u : TargetUpdate) :
    (findTarget r name = none → updateTarget r name u = (r, false))
    ∧ (∀ t, findTarget r name = some t →
        (updateTarget r name u).2 = true
        ∧ findTarget (updateTarget r name u).1 name = some (applyUpdate u t)
        ∧ (∀ m, ¬(m = name) →
            findTarget (updateTarget r name u).1 m = findTarget r m)
        ∧ (u.url = none → (applyUpdate u t).url = t.url)
        ∧ (∀ v, u.url = some v → (applyUpdate u t).url = some v)
        ∧ (u.headers = none → (applyUpdate u t).headers = t.headers)
        ∧ (∀ hs k, u.headers = some hs →
            lookupKey (applyUpdate u t).headers k =
              match lookupKey hs k with
              | some v => some v
              | none => lookupKey t.headers k)
        ∧ (u.events = none → (applyUpdate u t).events = t.events)
        ∧ (∀ es, u.events = some es → (applyUpdate u t).events = es)) := by
  constructor
  · intro h
    simp [updateTarget, h]
  · intro t ht
    have hsome : (findTarget r name).isSome = true := by
      rw [ht]; rfl
    have hfst : (updateTarget r name u).1 = updateWhere r name (applyUpdate u) := by
      simp [updateTarget, hsome]
    refine ⟨by simp [updateTarget, hsome], ?_, ?_, ?_, ?_, ?_, ?_, ?_, ?_⟩
    · rw [hfst]
      exact findTarget_updateWhere_self r name (applyUpdate u)
        (applyUpdate_name u) t ht
    · intro m hm
      rw [hfst]
      exact findTarget_updateWhere_other r name (applyUpdate u)
        (applyUpdate_name u) m hm
    · intro hu
      cases hh : u.headers <;> cases he : u.events <;>
        simp [applyUpdate, hu, hh, he]
    · intro v hu
      cases hh : u.headers <;> cases he : u.events <;>
        simp [applyUpdate, hu, hh, he]
    · intro hh
      cases hu : u.url <;> cases he : u.events <;>
        simp [applyUpdate, hu, hh, he]
    · intro hs k hh
      have hhead : (applyUpdate u t).headers = objMerge t.headers hs := by
        cases hu : u.url <;> cases he : u.events <;>
          simp [applyUpdate, hu, hh, he]
      rw [hhead]
      exact lookupKey_objMerge t.headers hs k
    · intro he
      cases hu : u.url <;> cases hh : u.headers <;>
        simp [applyUpdate, hu, hh, he]
    · intro es he
      cases hu : u.url <;> cases hh : u.headers <;>
        simp [applyUpdate, hu, hh, he]

/-- Concrete instantiation of `updateTarget_spec`: updating the stored
target `"s"` succeeds and applies exactly the supplied fields; the unknown
name `"zz"` is rejected without mutation. -/
theorem updateTarget_spec_witness :
    (updateTarget [Target.mk "s" (some "http://old") [("a", "1"), ("b", "2")] ["e1"]]
        "zz" (TargetUpdate.mk (some "http://new") (some [("b", "9"), ("c", "3")]) (some ["e2"]))
      = ([Target.mk "s" (some "http://old") [("a", "1"), ("b", "2")] ["e1"]], false))
    ∧ ((updateTarget [Target.mk "s" (some "http://old") [("a", "1"), ("b", "2")] ["e1"]]
        "s" (TargetUpdate.mk (some "http://new") (some [("b", "9"), ("c", "3")]) (some ["e2"]))).2 = true) :=
  ⟨(updateTarget_spec [Target.mk "s" (some "http://old") [("a", "1"), ("b", "2")] ["e1"]]
      "zz" (TargetUpdate.mk (some "http://new") (some [("b", "9"), ("c", "3")]) (some ["e2"]))).1
      (by decide),
   ((updateTarget_spec [Target.mk "s" (some "http://old") [("a", "1"), ("b", "2")] ["e1"]]
      "s" (TargetUpdate.mk (some "http://new") (some [("b", "9"), ("c", "3")]) (some ["e2"]))).2
      (Target.mk "s" (some "http://old") [("a", "1"), ("b", "2")] ["e1"]) (by decide)).1⟩

/-- C6 counterexample: a target registered through the public `addTarget`
with the duplicated events list `["a", "a"]`. `addEventToTarget` sees the
event as already present and leaves both occurrences, so "exactly one
occurrence" fails on this registered target. -/
theorem addEventToTarget_dup_counterexample :
    ((findTarget
        (addEventToTarget
          (addTarget [] [TargetInput.mk "t" none none (some ["a", "a"])]).1
          "t" ["a"]).1 "t").map (fun t => t.events.count "a") = some 2)
    ∧ ¬ ((findTarget
        (addEventToTarget
          (addTarget [] [TargetInput.mk "t" none none (some ["a", "a"])]).1
          "t" ["a"]).1 "t").map (fun t => t.events.count "a") = some 1) := by
  constructor
  · rfl
  · decide

/-- C6 (amended): `addEventToTarget` on an unknown target name returns
`false` without mutation; on a known target it returns `true`, re-adding
an already-present event name is a no-op (hence re-adding any number of
times is too), and provided the event name occurred at most once in the
target's events list beforehand, adding it leaves exactly one
occurrence. -/
theorem addEventToTarget_spec (r : List Target) (name ev : String) :
    (findTarget r name = none → addEventToTarget r name [ev] = (r, false))
    ∧ (∀ t, findTarget r name = some t →
        (addEventToTarget r name [ev]).2 = true
        ∧ findTarget (addEventToTarget r name [ev]).1 name
            = some { t with events := appendEvents [ev] t.events }
        ∧ ev ∈ appendEvents [ev] t.events
        ∧ (ev ∈ t.events → appendEvents [ev] t.events = t.events)
        ∧ (t.events.count ev ≤ 1 →
            (appendEvents [ev] t.events).count ev = 1)) := by
  have happ : ∀ base : List String, appendEvents [ev] base =
      if base.contains ev then base else base ++ [ev] := by
    intro base
    rfl
  constructor
  · intro h
    simp [addEventToTarget, h]
  · intro t ht
    have hsome : (findTarget r name).isSome = true := by
      rw [ht]; rfl
    have hfst : (addEventToTarget r name [ev]).1
        = updateWhere r name
            (fun t => { t with events := appendEvents [ev] t.events }) := by
      simp [addEventToTarget, hsome]
    refine ⟨by simp [addEventToTarget, hsome], ?_, ?_, ?_, ?_⟩
    · rw [hfst]
      exact findTarget_updateWhere_self r name
        (fun t => { t with events := appendEvents [ev] t.events })
        (fun _ => rfl) t ht
    · rw [happ]
      by_cases hc : t.events.contains ev = true
      · rw [if_pos hc]
        simpa using hc
      · rw [if_neg hc]
        simp
    · intro hmem
      rw [happ, if_pos (by simpa using hmem)]
    · intro hcount
      rw [happ]
      by_cases hc : t.events.contains ev = true
      · rw [if_pos hc]
        have hmem : ev ∈ t.events := by simpa using hc
        have hpos : 0 < t.events.count ev := List.count_pos_iff.mpr hmem
        omega
      · rw [if_neg hc]
        have hmem : ev ∉ t.events := by simpa using hc
        rw [List.count_append, List.count_eq_zero.mpr hmem]
        simp

/-- Concrete instantiation of `addEventToTarget_spec`: re-adding `"x"` to
the target `"t"` (which already lists it once) succeeds, is a no-op, and
leaves exactly one occurrence; the unknown name `"zz"` is rejected. -/
theorem addEventToTarget_spec_witness :
    (addEventToTarget [Target.mk "t" none [] ["x"]] "zz" ["x"]
      = ([Target.mk "t" none [] ["x"]], false))
    ∧ ((addEventToTarget [Target.mk "t" none [] ["x"]] "t" ["x"]).2 = true)
    ∧ ((appendEvents ["x"] ["x"]).count "x" = 1) :=
  ⟨(addEventToTarget_spec [Target.mk "t" none [] ["x"]] "zz" "x").1 (by decide),
   ((addEventToTarget_spec [Target.mk "t" none [] ["x"]] "t" "x").2
      (Target.mk "t" none [] ["x"]) (by decide)).1,
   (((addEventToTarget_spec [Target.mk "t" none [] ["x"]] "t" "x").2
      (Target.mk "t" none [] ["x"]) (by decide)).2.2.2.2 (by decide))⟩

/-- C7: target resolution selects exactly the stored targets whose events
list contains the emitted event name or the literal wildcard `"*"`, in
registry order (the selection is a sublist of the registry); in particular
a target listing `"*"` is selected for every event name. -/
theorem resolveTargets_spec (r : List Target) (e : String) (t : Target) :
    (t ∈ resolveTargets r e ↔ t ∈ r ∧ (e ∈ t.events ∨ "*" ∈ t.events))
    ∧ (resolveTargets r e).Sublist r
    ∧ ("*" ∈ t.events → t ∈ r → t ∈ resolveTargets r e) := by
  have hmem : t ∈ resolveTargets r e ↔
      t ∈ r ∧ (e ∈ t.events ∨ "*" ∈ t.events) := by
    unfold resolveTargets
    rw [List.mem_filter]
    simp [matchesEvent]
  refine ⟨hmem, List.filter_sublist r, ?_⟩
  intro hw hr
  exact hmem.mpr ⟨hr, Or.inr hw⟩

/-- Concrete instantiation of `resolveTargets_spec`: a wildcard target is
selected for an event name no target explicitly lists. -/
theorem resolveTargets_spec_witness :
    Target.mk "w" none [] ["*"]
      ∈ resolveTargets [Target.mk "w" none [] ["*"]] "never.listed" :=
  (resolveTargets_spec [Target.mk "w" none [] ["*"]] "never.listed"
    (Target.mk "w" none [] ["*"])).2.2 (by decide) (by decide)

theorem localCallsOf_length_eq {α : Type} (env : EmitEnv) (e : String)
    (d : α) (locals : List Target) :
    (localCallsOf env e d locals).length = (localErrorsOf env e locals).length := by
  unfold localCallsOf localErrorsOf
  rw [length_filterMap_countP, length_filterMap_countP]
  simp [Option.isSome_map]

theorem remoteCallsOf_length_eq {α : Type} (env : EmitEnv) (e : String)
    (d : α) (remotes : List Target) :
    (remoteCallsOf env e d remotes).length
      = (remoteErrorsOf env e remotes).length := by
  unfold remoteCallsOf remoteErrorsOf
  rw [length_filterMap_countP, length_filterMap_countP]
  simp [Option.isSome_map]

theorem localErrorsOf_nil {α : Type} (env : EmitEnv) (e : String)
    (locals : List Target) (h : ∀ i, env.publish i = none) :
    localErrorsOf env e locals = [] ∧
      ∀ d : α, localCallsOf env e d locals = [] := by
  constructor
  · unfold localErrorsOf
    rw [List.filterMap_eq_nil_iff]
    intro p _
    rw [h p.1]
    rfl
  · intro d
    unfold localCallsOf
    rw [List.filterMap_eq_nil_iff]
    intro p _
    rw [h p.1]
    rfl

theorem remoteErrorsOf_length (env : EmitEnv) (e : String)
    (remotes : List Target) :
    (remoteErrorsOf env e remotes).length
      = remotes.countP (fun t => (fetchErrorMsg (env.fetch t.name)).isSome) := by
  unfold remoteErrorsOf
  rw [length_filterMap_countP]
  simp [Option.isSome_map]

theorem filter_publish_map {α : Type} (e : String) (d : α) (l : List Target) :
    (l.map (fun _ => (Action.publish e d : Action α))).filter isRequestAct
      = [] := by
  induction l with
  | nil => rfl
  | cons x xs ih => simp [isRequestAct, ih]

theorem filter_request_map {α : Type} (e : String) (d : α) (l : List Target) :
    (l.map (fun t =>
        (Action.request (t.url.getD "") (requestHeaders t) e d : Action α))).filter
        isRequestAct
      = l.map (fun t =>
          Action.request (t.url.getD "") (requestHeaders t) e d) := by
  induction l with
  | nil => rfl
  | cons x xs ih => simp [isRequestAct, ih]

theorem countP_publish_map {α : Type} (e : String) (d : α) (l : List Target) :
    (l.map (fun _ => (Action.publish e d : Action α))).countP isPublishAct
      = l.length := by
  induction l with
  | nil => rfl
  | cons x xs ih =>
    rw [List.map_cons, List.countP_cons, ih]
    simp [isPublishAct]

theorem countP_request_map {α : Type} (e : String) (d : α) (l : List Target) :
    (l.map (fun t =>
        (Action.request (t.url.getD "") (requestHeaders t) e d : Action α))).countP
        isPublishAct
      = 0 := by
  induction l with
  | nil => rfl
  | cons x xs ih => simp [List.countP_cons, isPublishAct, ih]

/-- C1: with no local handler errors, when the remote targets matched by
the event contain M failing deliveries (non-2xx or transport error), the
resolved `EmitResult` has exactly M error entries, `success` is true iff
M = 0, the configured error handler runs exactly M times, and one HTTP
request per matching remote target appears in the trace (every remote
delivery is driven to completion before `emit` returns). -/
theorem emit_remote_failure_accounting {α : Type} (r : List Target)
    (env : EmitEnv) (e : String) (d : α)
    (hlocal : ∀ i, env.publish i = none) :
    ((emitModel r env e d).result.errors.length = failCount env r e)
    ∧ ((emitModel r env e d).result.success = (failCount env r e == 0))
    ∧ ((emitModel r env e d).handlerCalls.length = failCount env r e)
    ∧ ((emitModel r env e d).actions.filter isRequestAct
        = (remoteMatches r e).map (fun t =>
            Action.request (t.url.getD "") (requestHeaders t) e d)) := by
  obtain ⟨hle, hlc⟩ := localErrorsOf_nil (α := α) env e (localMatches r e) hlocal
  have herr : (emitModel r env e d).result.errors
      = remoteErrorsOf env e (remoteMatches r e) := by
    show localErrorsOf env e (localMatches r e)
        ++ remoteErrorsOf env e (remoteMatches r e)
      = remoteErrorsOf env e (remoteMatches r e)
    rw [hle, List.nil_append]
  have hlen : (emitModel r env e d).result.errors.length = failCount env r e := by
    rw [herr, remoteErrorsOf_length]
    rfl
  refine ⟨hlen, ?_, ?_, ?_⟩
  · show (localErrorsOf env e (localMatches r e)
        ++ remoteErrorsOf env e (remoteMatches r e)).isEmpty
      = (failCount env r e == 0)
    rw [hle, List.nil_append, isEmpty_eq_beqZero, remoteErrorsOf_length]
    rfl
  · show (localCallsOf env e d (localMatches r e)
        ++ remoteCallsOf env e d (remoteMatches r e)).length
      = failCount env r e
    rw [List.length_append, hlc d, remoteCallsOf_length_eq,
      remoteErrorsOf_length]
    simp [failCount]
  · show ((localMatches r e).map (fun _ => (Action.publish e d : Action α))
        ++ (remoteMatches r e).map (fun t =>
            Action.request (t.url.getD "") (requestHeaders t) e d)).filter
          isRequestAct
      = (remoteMatches r e).map (fun t =>
          Action.request (t.url.getD "") (requestHeaders t) e d)
    rw [List.filter_append, filter_publish_map, filter_request_map,
      List.nil_append]

/-- Concrete instantiation of `emit_remote_failure_accounting`: one local
and two remote targets match `"x"`; the fetch for `"b"` returns HTTP 500
while `"c"` succeeds. -/
theorem emit_remote_failure_accounting_witness :
    ((emitModel
        [Target.mk "a" none [] ["x"],
         Target.mk "b" (some "http://svc/y") [] ["x"],
         Target.mk "c" (some "http://ok") [] ["x"]]
        (EmitEnv.mk (fun _ => none)
          (fun n => if n == "b"
            then FetchOutcome.httpError 500 "Internal Server Error"
            else FetchOutcome.ok))
        "x" "payload").result.errors.length
      = failCount
          (EmitEnv.mk (fun _ => none)
            (fun n => if n == "b"
              then FetchOutcome.httpError 500 "Internal Server Error"
              else FetchOutcome.ok))
          [Target.mk "a" none [] ["x"],
           Target.mk "b" (some "http://svc/y") [] ["x"],
           Target.mk "c" (some "http://ok") [] ["x"]] "x")
    ∧ ((emitModel
        [Target.mk "a" none [] ["x"],
         Target.mk "b" (some "http://svc/y") [] ["x"],
         Target.mk "c" (some "http://ok") [] ["x"]]
        (EmitEnv.mk (fun _ => none)
          (fun n => if n == "b"
            then FetchOutcome.httpError 500 "Internal Server Error"
            else FetchOutcome.ok))
        "x" "payload").result.success
      = (failCount
          (EmitEnv.mk (fun _ => none)
            (fun n => if n == "b"
              then FetchOutcome.httpError 500 "Internal Server Error"
              else FetchOutcome.ok))
          [Target.mk "a" none [] ["x"],
           Target.mk "b" (some "http://svc/y") [] ["x"],
           Target.mk "c" (some "http://ok") [] ["x"]] "x" == 0)) :=
  ⟨(emit_remote_failure_accounting _ _ "x" "payload" (fun _ => rfl)).1,
   (emit_remote_failure_accounting _ _ "x" "payload" (fun _ => rfl)).2.1⟩

/-- C2: for every event name, payload, registry state and environment —
any combination of local handler errors and remote delivery failures
included — `emit` resolves with a result object (the embedding is a total
function: every throwing operation of the source is caught) in which
`success` is exactly "no errors were captured", the error handler is
invoked once per captured error, every failing remote target is captured
as its `{target, event, error}` entry and routed to the error handler,
every matching remote target's HTTP request is issued regardless of any
other target's outcome (fault isolation), and a local handler error at
any position of the local loop is likewise captured and routed. -/
theorem emit_capture_spec {α : Type} (r : List Target) (env : EmitEnv)
    (e : String) (d : α) :
    ((emitModel r env e d).result.success
        = (emitModel r env e d).result.errors.isEmpty)
    ∧ ((emitModel r env e d).handlerCalls.length
        = (emitModel r env e d).result.errors.length)
    ∧ (∀ t err, t ∈ resolveTargets r e → isTruthyUrl t.url = true →
        fetchErrorMsg (env.fetch t.name) = some err →
        EmitError.mk t.name e err ∈ (emitModel r env e d).result.errors
        ∧ HandlerCall.mk err (some e) (some d)
          ∈ (emitModel r env e d).handlerCalls)
    ∧ (∀ t, t ∈ resolveTargets r e → isTruthyUrl t.url = true →
        Action.request (t.url.getD "") (requestHeaders t) e d
          ∈ (emitModel r env e d).actions)
    ∧ (∀ i (hi : i < (localMatches r e).length) (lerr : Err),
        env.publish i = some lerr →
        EmitError.mk ((localMatches r e).get ⟨i, hi⟩).name e lerr
          ∈ (emitModel r env e d).result.errors
        ∧ HandlerCall.mk lerr (some e) (some d)
          ∈ (emitModel r env e d).handlerCalls) := by
  refine ⟨rfl, ?_, ?_, ?_, ?_⟩
  · show (localCallsOf env e d (localMatches r e)
        ++ remoteCallsOf env e d (remoteMatches r e)).length
      = (localErrorsOf env e (localMatches r e)
        ++ remoteErrorsOf env e (remoteMatches r e)).length
    rw [List.length_append, List.length_append,
      localCallsOf_length_eq, remoteCallsOf_length_eq]
  · intro t err ht hurl hfail
    have htr : t ∈ remoteMatches r e := by
      unfold remoteMatches
      exact List.mem_filter.mpr ⟨ht, hurl⟩
    constructor
    · show EmitError.mk t.name e err
        ∈ localErrorsOf env e (localMatches r e)
          ++ remoteErrorsOf env e (remoteMatches r e)
      refine List.mem_append.mpr (Or.inr ?_)
      unfold remoteErrorsOf
      exact List.mem_filterMap.mpr ⟨t, htr, by rw [hfail]; rfl⟩
    · show HandlerCall.mk err (some e) (some d)
        ∈ localCallsOf env e d (localMatches r e)
          ++ remoteCallsOf env e d (remoteMatches r e)
      refine List.mem_append.mpr (Or.inr ?_)
      unfold remoteCallsOf
      exact List.mem_filterMap.mpr ⟨t, htr, by rw [hfail]; rfl⟩
  · intro t ht hurl
    have htr : t ∈ remoteMatches r e := by
      unfold remoteMatches
      exact List.mem_filter.mpr ⟨ht, hurl⟩
    show Action.request (t.url.getD "") (requestHeaders t) e d
      ∈ (localMatches r e).map (fun _ => (Action.publish e d : Action α))
        ++ (remoteMatches r e).map (fun t =>
            Action.request (t.url.getD "") (requestHeaders t) e d)
    refine List.mem_append.mpr (Or.inr ?_)
    exact List.mem_map_of_mem _ htr
  · intro i hi lerr hp
    have henum : (i, (localMatches r e).get ⟨i, hi⟩)
        ∈ (localMatches r e).enum := by
      have hi' : i < (localMatches r e).enum.length := by
        simpa [List.enum_length] using hi
      have hg := List.getElem_enum (localMatches r e) i hi'
      rw [List.get_eq_getElem, ← hg]
      exact List.getElem_mem hi'
    constructor
    · show EmitError.mk ((localMatches r e).get ⟨i, hi⟩).name e lerr
        ∈ localErrorsOf env e (localMatches r e)
          ++ remoteErrorsOf env e (remoteMatches r e)
      refine List.mem_append.mpr (Or.inl ?_)
      unfold localErrorsOf
      exact List.mem_filterMap.mpr
        ⟨(i, (localMatches r e).get ⟨i, hi⟩), henum, by rw [hp]; rfl⟩
    · show HandlerCall.mk lerr (some e) (some d)
        ∈ localCallsOf env e d (localMatches r e)
          ++ remoteCallsOf env e d (remoteMatches r e)
      refine List.mem_append.mpr (Or.inl ?_)
      unfold localCallsOf
      exact List.mem_filterMap.mpr
        ⟨(i, (localMatches r e).get ⟨i, hi⟩), henum, by rw [hp]; rfl⟩

/-- Concrete instantiation of `emit_capture_spec`, covering both failure
kinds: the remote target `"b"` failing with HTTP 500 yields its captured
error entry, and separately an emit where only the local handler throws
(all fetches succeed) yields the local target's captured error entry. -/
theorem emit_capture_spec_witness :
    (EmitError.mk "b" "x" "HTTP error! Status: 500: Internal Server Error"
      ∈ (emitModel
          [Target.mk "a" none [] ["x"],
           Target.mk "b" (some "http://svc/y") [] ["x"]]
          (EmitEnv.mk (fun _ => none)
            (fun n => if n == "b"
              then FetchOutcome.httpError 500 "Internal Server Error"
              else FetchOutcome.ok))
          "x" "payload").result.errors)
    ∧ (EmitError.mk
        ((localMatches
            [Target.mk "a" none [] ["x"],
             Target.mk "b" (some "http://svc/y") [] ["x"]] "x").get
          ⟨0, by decide⟩).name "x" "handler boom"
      ∈ (emitModel
          [Target.mk "a" none [] ["x"],
           Target.mk "b" (some "http://svc/y") [] ["x"]]
          (EmitEnv.mk (fun _ => some "handler boom")
            (fun _ => FetchOutcome.ok))
          "x" "payload").result.errors) :=
  ⟨((emit_capture_spec
      [Target.mk "a" none [] ["x"],
       Target.mk "b" (some "http://svc/y") [] ["x"]]
      (EmitEnv.mk (fun _ => none)
        (fun n => if n == "b"
          then FetchOutcome.httpError 500 "Internal Server Error"
          else FetchOutcome.ok))
      "x" "payload").2.2.1 (Target.mk "b" (some "http://svc/y") [] ["x"])
      "HTTP error! Status: 500: Internal Server Error"
      (by decide) (by decide) (by decide)).1,
   ((emit_capture_spec
      [Target.mk "a" none [] ["x"],
       Target.mk "b" (some "http://svc/y") [] ["x"]]
      (EmitEnv.mk (fun _ => some "handler boom")
        (fun _ => FetchOutcome.ok))
      "x" "payload").2.2.2.2 0 (by decide) "handler boom" rfl).1⟩

/-- C5: local delivery is one shared notifier publish per matching local
target, in registry order (the local matches are a sublist of the
registry): the trace holds exactly one publish action per matching local
target, so k >= 2 matching local targets make the underlying publish run
more than once; and the trace is the local publishes followed by the
remote requests — every local delivery happens before any HTTP request is
issued. -/
theorem emit_local_first {α : Type} (r : List Target) (env : EmitEnv)
    (e : String) (d : α) (h : 2 ≤ (localMatches r e).length) :
    ((emitModel r env e d).actions.countP isPublishAct
        = (localMatches r e).length)
    ∧ 1 < (emitModel r env e d).actions.countP isPublishAct
    ∧ (∃ as bs, (emitModel r env e d).actions = as ++ bs
        ∧ (∀ a ∈ as, isPublishAct a = true)
        ∧ (∀ b ∈ bs, isRequestAct b = true)
        ∧ as.length = (localMatches r e).length)
    ∧ (localMatches r e).Sublist r := by
  have hcount : (emitModel r env e d).actions.countP isPublishAct
      = (localMatches r e).length := by
    show ((localMatches r e).map (fun _ => (Action.publish e d : Action α))
        ++ (remoteMatches r e).map (fun t =>
            Action.request (t.url.getD "") (requestHeaders t) e d)).countP
          isPublishAct
      = (localMatches r e).length
    rw [List.countP_append, countP_publish_map, countP_request_map]
    omega
  refine ⟨hcount, by omega, ?_, ?_⟩
  · refine ⟨(localMatches r e).map (fun _ => (Action.publish e d : Action α)),
      (remoteMatches r e).map (fun t =>
        Action.request (t.url.getD "") (requestHeaders t) e d),
      ?_, ?_, ?_, by rw [List.length_map]⟩
    · rfl
    · intro a ha
      obtain ⟨x, _, hx⟩ := List.mem_map.mp ha
      rw [← hx]
      rfl
    · intro b hb
      obtain ⟨x, _, hx⟩ := List.mem_map.mp hb
      rw [← hx]
      rfl
  · unfold localMatches resolveTargets
    exact (List.filter_sublist _).trans (List.filter_sublist _)

/-- Concrete instantiation of `emit_local_first`: two local targets match
`"x"`, so the notifier publish runs twice (duplicate delivery). -/
theorem emit_local_first_witness :
    ((emitModel
        [Target.mk "l1" none [] ["x"],
         Target.mk "l2" none [] ["x"],
         Target.mk "rm" (some "http://s") [] ["x"]]
        (EmitEnv.mk (fun _ => none) (fun _ => FetchOutcome.ok))
        "x" "p").actions.countP isPublishAct
      = (localMatches
          [Target.mk "l1" none [] ["x"],
           Target.mk "l2" none [] ["x"],
           Target.mk "rm" (some "http://s") [] ["x"]] "x").length)
    ∧ 1 < ((emitModel
        [Target.mk "l1" none [] ["x"],
         Target.mk "l2" none [] ["x"],
         Target.mk "rm" (some "http://s") [] ["x"]]
        (EmitEnv.mk (fun _ => none) (fun _ => FetchOutcome.ok))
        "x" "p").actions.countP isPublishAct) :=
  ⟨(emit_local_first
      [Target.mk "l1" none [] ["x"],
       Target.mk "l2" none [] ["x"],
       Target.mk "rm" (some "http://s") [] ["x"]]
      (EmitEnv.mk (fun _ => none) (fun _ => FetchOutcome.ok))
      "x" "p" (by decide)).1,
   (emit_local_first
      [Target.mk "l1" none [] ["x"],
       Target.mk "l2" none [] ["x"],
       Target.mk "rm" (some "http://s") [] ["x"]]
      (EmitEnv.mk (fun _ => none) (fun _ => FetchOutcome.ok))
      "x" "p" (by decide)).2.1⟩

/-- C8: when no stored target matches the event name, `emit` resolves with
`{success: true, errors: []}` and the trace is empty — no publish, no HTTP
request, no error-handler call. -/
theorem emit_no_matching_targets {α : Type} (r : List Target)
    (env : EmitEnv) (e : String) (d : α)
    (h : resolveTargets r e = []) :
    emitModel r env e d
      = ⟨⟨true, []⟩, [], ([] : List (Action α))⟩ := by
  have hl : localMatches r e = [] := by
    unfold localMatches
    rw [h]
    rfl
  have hr : remoteMatches r e = [] := by
    unfold remoteMatches
    rw [h]
    rfl
  unfold emitModel
  rw [hl, hr]
  rfl

/-- Concrete instantiation of `emit_no_matching_targets`: the registry
only lists `"y"`, so emitting `"x"` produces the empty trace. -/
theorem emit_no_matching_targets_witness :
    emitModel [Target.mk "t" none [] ["y"]]
      (EmitEnv.mk (fun _ => none) (fun _ => FetchOutcome.ok)) "x" "p"
      = ⟨⟨true, []⟩, [], ([] : List (Action String))⟩ :=
  emit_no_matching_targets [Target.mk "t" none [] ["y"]]
    (EmitEnv.mk (fun _ => none) (fun _ => FetchOutcome.ok)) "x" "p"
    (by decide)

/-- C9: for a string body that fails to parse as JSON,
`handleIncomingEvent` invokes the configured error handler exactly once,
tagged with the fixed marker event name `'parse_event'` and carrying the
raw parse error (no data argument), re-throws that raw error to its
caller, and schedules no delivery. -/
theorem handleIncoming_parse_failure {α : Type}
    (parse : String → Except Err (Option String × Option α)) (s : String)
    (err : Err) (h : parse s = Except.error err) :
    handleIncomingEvent parse (Body.str s)
      = ⟨[⟨err, some "parse_event", none⟩], [], some err⟩ := by
  simp [handleIncomingEvent, h]

/-- Concrete instantiation of `handleIncoming_parse_failure` at the body
`'not json'` with a parse oracle that rejects it. -/
theorem handleIncoming_parse_failure_witness :
    handleIncomingEvent
      (fun _ => (Except.error "Unexpected token o in JSON at position 1" :
        Except Err (Option String × Option String)))
      (Body.str "not json")
      = ⟨[⟨"Unexpected token o in JSON at position 1", some "parse_event", none⟩],
         [], some "Unexpected token o in JSON at position 1"⟩ :=
  handleIncoming_parse_failure
    (fun _ => Except.error "Unexpected token o in JSON at position 1")
    "not json" "Unexpected token o in JSON at position 1" rfl

/-- C10: for a body that is already a structured (non-null) object,
`handleIncomingEvent` resolves without throwing whatever the object's
shape — `eventName` and `data` may both be absent — no error-handler call
is made before returning, and delivery of the destructured pair is
deferred unvalidated. -/
theorem handleIncoming_object_resolves {α : Type}
    (parse : String → Except Err (Option String × Option α))
    (en : Option String) (d : Option α) :
    handleIncomingEvent parse (Body.obj en d) = ⟨[], [(en, d)], none⟩
    ∧ (handleIncomingEvent parse (Body.obj en d)).thrown = none :=
  ⟨rfl, rfl⟩

end MikroEvent
